import Mathlib

/-!
Verification of `dbaas_prometheus_exporter.py` (exoscale-dbaas-prometheus-exporter).

The development shallowly embeds the program's two components:
* the request signer `ExoscaleV2Auth` (canonical message, HMAC-SHA256,
  base64, Authorization header construction), and
* the metrics poller `fetch_metrics` together with the module-level
  startup validation.

Bytes are modelled as `List Nat` (each element < 256 by construction),
machine words of SHA-256 as `Nat` reduced modulo `2 ^ 32`.  Strings are
Lean `String`s; UTF-8 encoding is made explicit where the Python code
encodes.  JSON values carry rational scalars.  Stateful code (the gauge
registry, the poll loop) is explicit state passing.
-/

namespace DbaasExporter

/-! ## Bytes and UTF-8 -/

/-- UTF-8 encoding of a single character (standard 1-4 byte encoding of
the code point), as `str.encode` in Python produces. -/
def utf8Char (c : Char) : List Nat :=
  let n := c.toNat
  if n < 128 then [n]
  else if n < 2048 then
    [192 ||| (n >>> 6), 128 ||| (n &&& 63)]
  else if n < 65536 then
    [224 ||| (n >>> 12), 128 ||| ((n >>> 6) &&& 63), 128 ||| (n &&& 63)]
  else
    [240 ||| (n >>> 18), 128 ||| ((n >>> 12) &&& 63),
     128 ||| ((n >>> 6) &&& 63), 128 ||| (n &&& 63)]

/-- UTF-8 encoding of a string, the model of Python `s.encode("utf-8")`. -/
def utf8 (s : String) : List Nat :=
  (s.data.map utf8Char).flatten

theorem utf8_append (a b : String) : utf8 (a ++ b) = utf8 a ++ utf8 b := by
  simp [utf8, String.data_append]

theorem utf8_empty : utf8 "" = [] := rfl

/-! ## SHA-256 over `Nat` words -/

/-- Truncation to a 32-bit word. -/
def w32 (n : Nat) : Nat := n % 4294967296

/-- Right rotation of a 32-bit word by `k` bits. -/
def rotr (k x : Nat) : Nat := w32 ((x >>> k) ||| (x <<< (32 - k)))

/-- The SHA-256 round constants (FIPS 180-4), in decimal. -/
def shaK : List Nat :=
  [1116352408, 1899447441, 3049323471, 3921009573, 961987163,
   1508970993, 2453635748, 2870763221, 3624381080, 310598401,
   607225278, 1426881987, 1925078388, 2162078206, 2614888103,
   3248222580, 3835390401, 4022224774, 264347078, 604807628,
   770255983, 1249150122, 1555081692, 1996064986, 2554220882,
   2821834349, 2952996808, 3210313671, 3336571891, 3584528711,
   113926993, 338241895, 666307205, 773529912, 1294757372,
   1396182291, 1695183700, 1986661051, 2177026350, 2456956037,
   2730485921, 2820302411, 3259730800, 3345764771, 3516065817,
   3600352804, 4094571909, 275423344, 430227734, 506948616,
   659060556, 883997877, 958139571, 1322822218, 1537002063,
   1747873779, 1955562222, 2024104815, 2227730452, 2361852424,
   2428436474, 2756734187, 3204031479, 3329325298]

/-- The SHA-256 initial hash value (FIPS 180-4), in decimal. -/
def shaH0 : List Nat :=
  [1779033703, 3144134277, 1013904242, 2773480762,
   1359893119, 2600822924, 528734635, 1541459225]

/-- Big-endian 8-byte encoding of a natural number (the length field of
SHA-256 padding). -/
def be8 (n : Nat) : List Nat :=
  [(n >>> 56) % 256, (n >>> 48) % 256, (n >>> 40) % 256, (n >>> 32) % 256,
   (n >>> 24) % 256, (n >>> 16) % 256, (n >>> 8) % 256, n % 256]

/-- SHA-256 message padding: `0x80`, zeros to 56 mod 64, then the
bit length as an 8-byte big-endian integer. -/
def shaPad (msg : List Nat) : List Nat :=
  let L := msg.length
  let k := (120 - ((L + 1) % 64)) % 64
  msg ++ 128 :: List.replicate k 0 ++ be8 (8 * L)

/-- Big-endian 32-bit words from a byte list (length a multiple of 4). -/
def bytesToWords : List Nat → List Nat
  | b0 :: b1 :: b2 :: b3 :: rest =>
      (b0 <<< 24 ||| b1 <<< 16 ||| b2 <<< 8 ||| b3) :: bytesToWords rest
  | _ => []

/-- Big-endian bytes of a list of 32-bit words. -/
def wordsToBytes : List Nat → List Nat
  | [] => []
  | w :: rest =>
      (w >>> 24) % 256 :: (w >>> 16) % 256 :: (w >>> 8) % 256 :: w % 256 ::
      wordsToBytes rest

/-- One extension step of the SHA-256 message schedule. -/
def shaExtend : Nat → List Nat → List Nat
  | 0, ws => ws
  | n + 1, ws =>
      let i := ws.length
      let x15 := ws.getD (i - 15) 0
      let x2 := ws.getD (i - 2) 0
      let s0 := rotr 7 x15 ^^^ rotr 18 x15 ^^^ (x15 >>> 3)
      let s1 := rotr 17 x2 ^^^ rotr 19 x2 ^^^ (x2 >>> 10)
      shaExtend n (ws ++ [w32 (ws.getD (i - 16) 0 + s0 + ws.getD (i - 7) 0 + s1)])

/-- One round of the SHA-256 compression function. -/
def shaRound (st : Nat × Nat × Nat × Nat × Nat × Nat × Nat × Nat)
    (wk : Nat × Nat) : Nat × Nat × Nat × Nat × Nat × Nat × Nat × Nat :=
  let (a, b, c, d, e, f, g, h) := st
  let (w, k) := wk
  let S1 := rotr 6 e ^^^ rotr 11 e ^^^ rotr 25 e
  let ch := (e &&& f) ^^^ ((4294967295 - e) &&& g)
  let t1 := w32 (h + S1 + ch + k + w)
  let S0 := rotr 2 a ^^^ rotr 13 a ^^^ rotr 22 a
  let mj := (a &&& b) ^^^ (a &&& c) ^^^ (b &&& c)
  let t2 := w32 (S0 + mj)
  (w32 (t1 + t2), a, b, c, w32 (d + t1), e, f, g)

/-- Compression of one 64-byte block (given as 16 words) into the
running hash value. -/
def shaBlock (H : List Nat) (block : List Nat) : List Nat :=
  let ws := shaExtend 48 block
  let init := (H.getD 0 0, H.getD 1 0, H.getD 2 0, H.getD 3 0,
               H.getD 4 0, H.getD 5 0, H.getD 6 0, H.getD 7 0)
  let (a, b, c, d, e, f, g, h) := (ws.zip shaK).foldl shaRound init
  [w32 (a + H.getD 0 0), w32 (b + H.getD 1 0), w32 (c + H.getD 2 0),
   w32 (d + H.getD 3 0), w32 (e + H.getD 4 0), w32 (f + H.getD 5 0),
   w32 (g + H.getD 6 0), w32 (h + H.getD 7 0)]

/-- Fold the compression function over consecutive 16-word blocks. -/
def shaBlocks (H : List Nat) : List Nat → List Nat
  | w0 :: w1 :: w2 :: w3 :: w4 :: w5 :: w6 :: w7 ::
    w8 :: w9 :: w10 :: w11 :: w12 :: w13 :: w14 :: w15 :: rest =>
      shaBlocks (shaBlock H
        [w0, w1, w2, w3, w4, w5, w6, w7, w8, w9, w10, w11, w12, w13, w14, w15])
        rest
  | _ => H

/-- SHA-256 of a byte list, as a 32-byte list. -/
def sha256 (msg : List Nat) : List Nat :=
  wordsToBytes (shaBlocks shaH0 (bytesToWords (shaPad msg)))

/-! ## HMAC-SHA256 and base64 -/

/-- HMAC-SHA256 (RFC 2104) with a 64-byte block size, as
`hmac.new(secret, msg=msg, digestmod=hashlib.sha256).digest()` computes. -/
def hmacSha256 (key msg : List Nat) : List Nat :=
  let k0 := if key.length > 64 then sha256 key else key
  let kp := k0 ++ List.replicate (64 - k0.length) 0
  let ipad := kp.map (fun b => b ^^^ 54)
  let opad := kp.map (fun b => b ^^^ 92)
  sha256 (opad ++ sha256 (ipad ++ msg))

/-- The standard base64 alphabet as characters. -/
def b64Alphabet : List Char :=
  "ABCDEFGHIJKLMNOPQRSTUVWXYZabcdefghijklmnopqrstuvwxyz0123456789+/".data

/-- Character for a 6-bit group. -/
def b64Char (n : Nat) : Char := b64Alphabet.getD n 'A'

/-- Standard base64 encoding with `=` padding, the model of
`base64.standard_b64encode`. -/
def b64encode : List Nat → List Char
  | b0 :: b1 :: b2 :: rest =>
      let n := b0 <<< 16 ||| b1 <<< 8 ||| b2
      b64Char (n >>> 18) :: b64Char ((n >>> 12) &&& 63) ::
      b64Char ((n >>> 6) &&& 63) :: b64Char (n &&& 63) :: b64encode rest
  | [b0, b1] =>
      let n := b0 <<< 16 ||| b1 <<< 8
      [b64Char (n >>> 18), b64Char ((n >>> 12) &&& 63),
       b64Char ((n >>> 6) &&& 63), '=']
  | [b0] =>
      let n := b0 <<< 16
      [b64Char (n >>> 18), b64Char ((n >>> 12) &&& 63), '=', '=']
  | [] => []

/-- Base64 encoding as a string. -/
def standard_b64encode (bs : List Nat) : String :=
  String.mk (b64encode bs)

set_option maxRecDepth 100000

/-- Sanity check of the hash implementation against the well-known
digest of the empty message. -/
theorem sha256_empty_vector :
    sha256 [] =
      [227, 176, 196, 66, 152, 252, 28, 20,
       154, 251, 244, 200, 153, 111, 185, 36,
       39, 174, 65, 228, 100, 155, 147, 76,
       164, 149, 153, 27, 120, 82, 184, 85] := by
  decide

/-- Sanity check against the FIPS 180-2 test vector for `"abc"`. -/
theorem sha256_abc_vector :
    standard_b64encode (sha256 (utf8 "abc")) =
      "ungWv48Bz+pBQUDeXa4iI7ADYaOWF3qctBD/YfIAFa0=" := by
  decide

/-- Sanity check of the HMAC implementation against RFC 4231 test case 1. -/
theorem hmac_rfc4231_vector :
    standard_b64encode (hmacSha256 (List.replicate 20 11) (utf8 "Hi There")) =
      "sDRMYdjbOFNcqK/OrwvxK4gdwgDJgz2nJuk3bC4yz/c=" := by
  decide

/-! ## Query-string parsing

Model of `urllib.parse.parse_qs` with its default arguments
(`keep_blank_values=False`, `strict_parsing=False`, separator `&`):
the query string is split on `&`, each chunk is split at its first `=`,
chunks that are empty, have no `=`, or have an empty value are dropped.
Percent-decoding and `+` replacement are the identity on the inputs this
program produces and are not modelled. -/

/-- Split a character list on every occurrence of the separator
(`str.split(sep)` semantics: `n` separators give `n + 1` chunks). -/
def splitOnChar (sep : Char) : List Char → List (List Char)
  | [] => [[]]
  | c :: rest =>
      match splitOnChar sep rest with
      | [] => [[]]
      | chunk :: chunks =>
          if c = sep then [] :: chunk :: chunks else (c :: chunk) :: chunks

/-- Split a chunk at its first `=` (`str.split(sep, 1)` semantics),
returning `none` when the chunk holds no `=`. -/
def splitFirstEq : List Char → Option (List Char × List Char)
  | [] => none
  | c :: rest =>
      if c = '=' then some ([], rest)
      else (splitFirstEq rest).map (fun p => (c :: p.1, p.2))

/-- One `name=value` chunk of a query string.  Empty chunks, chunks with
no `=`, and chunks with a blank value yield nothing, as `parse_qsl` with
`keep_blank_values=False` drops them. -/
def parseChunk (chunk : List Char) : Option (String × String) :=
  if chunk = [] then none
  else
    match splitFirstEq chunk with
    | none => none
    | some (n, v) => if v = [] then none else some (String.mk n, String.mk v)

/-- The ordered `(name, value)` occurrence list of a query string, the
model of `urllib.parse.parse_qsl`. -/
def parse_qsl (q : String) : List (String × String) :=
  (splitOnChar '&' q.data).filterMap parseChunk

/-- The values of `parse_qs(q)[name]`: all values bound to `name`, in
occurrence order. -/
def qsValues (q : String) (name : String) : List String :=
  ((parse_qsl q).filter (fun pr => decide (pr.1 = name))).map Prod.snd

/-- The distinct parameter names of an occurrence list, first occurrence
first — the key set of the dictionary `parse_qs` returns. -/
def distinctNames : List String → List String
  | [] => []
  | n :: rest => n :: (distinctNames rest).filter (fun m => decide (m ≠ n))

/-- `sorted(params)` of the signer: the distinct query-parameter names in
lexicographically ascending order. -/
def signed_params (q : String) : List String :=
  List.insertionSort (· ≤ ·)
    (distinctNames ((parse_qsl q).map Prod.fst))

/-- `params_values` of the signer: iterating the sorted names, a name
bound to exactly one value contributes that value, any other name is
skipped. -/
def params_values (q : String) : List String :=
  (signed_params q).filterMap (fun p =>
    match qsValues q p with
    | [v] => some v
    | _ => none)

/-! ## The request signer `ExoscaleV2Auth` -/

/-- An outgoing request as the signer sees it: `method` and the
`urlparse` decomposition of its URL into `path` and `query`, the raw
body, and the header dictionary. -/
structure PreparedRequest where
  method : String
  path : String
  query : String
  body : Option String
  headers : List (String × String)
deriving DecidableEq

/-- Header-dictionary update, `request.headers[k] = v`. -/
def setHeader (hs : List (String × String)) (k v : String) :
    List (String × String) :=
  match hs with
  | [] => [(k, v)]
  | e :: rest => if e.1 = k then (k, v) :: rest else e :: setHeader rest k v

/-- Header-dictionary lookup. -/
def getHeader (hs : List (String × String)) (k : String) : Option String :=
  (hs.find? (fun e => decide (e.1 = k))).map Prod.snd

/-- `b"\n".join` on byte lists. -/
def byteJoin : List (List Nat) → List Nat
  | [] => []
  | [x] => x
  | x :: xs => x ++ 10 :: byteJoin xs

/-- The signer's `msg_parts`, in construction order: `"METHOD path"`,
the body bytes (empty when the body is absent or empty, matching the
`request.body if request.body else b""` truthiness test), the joined
single-valued query values, the empty signed-headers segment, and the
decimal expiration timestamp. -/
def msg_parts (r : PreparedRequest) (expiration_ts : Nat) : List (List Nat) :=
  [utf8 (r.method ++ " " ++ r.path),
   (match r.body with
    | some b => utf8 b
    | none => []),
   utf8 (String.join (params_values r.query)),
   [],
   utf8 (toString expiration_ts)]

/-- The canonical message `msg = b"\n".join(msg_parts)`. -/
def canonical_message (r : PreparedRequest) (expiration_ts : Nat) : List Nat :=
  byteJoin (msg_parts r expiration_ts)

/-- The base64 signature of the canonical message under the credential
secret. -/
def request_signature (secret : String) (r : PreparedRequest)
    (expiration_ts : Nat) : String :=
  standard_b64encode (hmacSha256 (utf8 secret) (canonical_message r expiration_ts))

/-- The optional `,signed-query-args=` segment: appended exactly when
`signed_params` is nonempty, listing the sorted names joined by `;`. -/
def signed_query_args_segment (q : String) : String :=
  if signed_params q ≠ [] then
    ",signed-query-args=" ++ String.intercalate ";" (signed_params q)
  else ""

/-- The Authorization header value `_sign_request` builds, following the
incremental construction of `auth_header` in the source. -/
def auth_header (key secret : String) (r : PreparedRequest)
    (expiration_ts : Nat) : String :=
  "EXO2-HMAC-SHA256 credential=" ++ key
    ++ signed_query_args_segment r.query
    ++ ",expires=" ++ toString expiration_ts
    ++ ",signature=" ++ request_signature secret r expiration_ts

/-- `ExoscaleV2Auth._sign_request`: store the computed header value under
`Authorization`. -/
def sign_request (key secret : String) (r : PreparedRequest)
    (expiration_ts : Nat) : PreparedRequest :=
  let v := auth_header key secret r expiration_ts
  { r with headers := setHeader r.headers "Authorization" v }

/-- `ExoscaleV2Auth.__call__` at current UNIX time `t`:
`expiration_ts = int(time.time() + 10 * 60)` and then `_sign_request`. -/
def auth_call (key secret : String) (t : Nat) (r : PreparedRequest) :
    PreparedRequest :=
  sign_request key secret r (t + 10 * 60)

/-! ## JSON values and metric extraction -/

/-- JSON values as the poller consumes them.  Scalars are rationals
(the exact values the JSON text denotes); strings do not occur in the
metric payloads this program reads and are not modelled. -/
inductive JVal where
  | null : JVal
  | num : ℚ → JVal
  | arr : List JVal → JVal
  | obj : List (String × JVal) → JVal

/-- Dictionary access `j[k]`; `none` models the `KeyError` /
`TypeError` the subscript raises otherwise. -/
def jget : JVal → String → Option JVal
  | JVal.obj fields, k => (fields.find? (fun p => decide (p.1 = k))).map Prod.snd
  | _, _ => none

/-- List access `j[-1]`; `none` models the `IndexError` on an empty
list and the `TypeError` on a non-list. -/
def jlast : JVal → Option JVal
  | JVal.arr xs => xs.getLast?
  | _ => none

/-- List access `j[i]` for `i ≥ 0`. -/
def jat : JVal → Nat → Option JVal
  | JVal.arr xs, i => xs.get? i
  | _, _ => none

/-- `metrics_data["metrics"][key]["data"]["rows"][-1][1]`: the access
chain of one `latest_...` assignment of `fetch_metrics`.  `none` means
the chain raised. -/
def latest_metric (body : JVal) (key : String) : Option JVal :=
  jget body "metrics" >>= fun m =>
  jget m key >>= fun s =>
  jget s "data" >>= fun d =>
  jget d "rows" >>= fun rows =>
  jlast rows >>= fun row =>
  jat row 1

/-- The nine metric keys, in the order the source reads them. -/
def metric_keys : List String :=
  ["disk_usage", "load_average", "mem_usage", "diskio_writes",
   "mem_available", "cpu_usage", "diskio_read", "net_send", "net_receive"]

/-- The nine gauge names, in the order the source sets them (the
`Gauge(...)` declarations paired with the `.set` calls). -/
def gauge_names : List String :=
  ["dbaas_disk_usage", "dbaas_load_average", "dbaas_memory_usage",
   "dbaas_disk_io_writes", "dbaas_memory_available", "dbaas_cpu_usage",
   "dbaas_disk_io_reads", "dbaas_network_transmit_bytes_per_sec",
   "dbaas_network_receive_bytes_per_sec"]

/-- Map a fallible function over a list, failing on the first failure —
the sequencing of a block of fallible assignments. -/
def optionTraverse (f : α → Option β) : List α → Option (List β)
  | [] => some []
  | a :: rest => f a >>= fun b => (optionTraverse f rest).map (fun bs => b :: bs)

/-- The nine `latest_... = ...` extraction lines, run in order before any
gauge is set; the first raising access aborts the block, so `none` models
any of the nine lines raising. -/
def extract_nine (body : JVal) : Option (List JVal) :=
  optionTraverse (latest_metric body) metric_keys

/-- `Gauge.set(value)` converts its argument with `float`; a non-number
raises.  Rationals stand for the scalars. -/
def gauge_set_value : JVal → Option ℚ
  | JVal.num q => some q
  | _ => none

/-- The nine scalar values of a fully well-formed 200 payload: every key
and row present and every extracted element numeric. -/
def nine_values (body : JVal) : Option (List ℚ) :=
  extract_nine body >>= optionTraverse gauge_set_value

/-! ## The gauge registry -/

/-- The gauge registry: one entry per `(gauge name, database label)`
pair that has been written, with its current value. -/
abbrev Gauges := List ((String × String) × ℚ)

/-- `gauge.labels(database=db).set(v)`: overwrite the entry of the pair,
creating it on first write. -/
def set_gauge (g : Gauges) (name db : String) (v : ℚ) : Gauges :=
  match g with
  | [] => [((name, db), v)]
  | e :: rest =>
      if e.1 = (name, db) then ((name, db), v) :: rest
      else e :: set_gauge rest name db v

/-- The current value of a gauge/label pair, as the pull endpoint would
expose it; `none` when never written. -/
def get_gauge (g : Gauges) (name db : String) : Option ℚ :=
  (g.find? (fun e => decide (e.1 = (name, db)))).map Prod.snd

/-- The nine `.set` statements, in source order.  The first non-numeric
value raises, leaving the earlier sets in place (`true` = an exception
escaped the block). -/
def set_phase (g : Gauges) (db : String) :
    List (String × JVal) → Gauges × Bool
  | [] => (g, false)
  | (name, v) :: rest =>
      match gauge_set_value v with
      | some q => set_phase (set_gauge g name db q) db rest
      | none => (g, true)

/-! ## One database of one poll cycle -/

/-- What sending the request produced: `exn` is `requests.post` raising
(connection failure and the like); otherwise a status code and — for the
body — `some` parsed JSON, or `none` when `response.json()` raises. -/
inductive HttpOutcome where
  | exn : HttpOutcome
  | response (status : Nat) (body : Option JVal) : HttpOutcome

/-- The body of the per-database iteration of `fetch_metrics`, from the
`requests.post` call to the last `.set`: the updated registry, and
whether an exception escaped (to be caught by the handler wrapping the
whole for-loop). -/
def process_database (g : Gauges) (db : String) (out : HttpOutcome) :
    Gauges × Bool :=
  match out with
  | HttpOutcome.exn => (g, true)
  | HttpOutcome.response status body =>
      if status = 200 then
        match body with
        | none => (g, true)
        | some j =>
            match extract_nine j with
            | none => (g, true)
            | some vs => set_phase g db (gauge_names.zip vs)
      else (g, false)

/-- Whether processing a database with this outcome raises; independent
of the registry and of the database name. -/
def raises_exception : HttpOutcome → Bool
  | HttpOutcome.exn => true
  | HttpOutcome.response status body =>
      if status = 200 then
        match body with
        | none => true
        | some j =>
            match extract_nine j with
            | none => true
            | some vs =>
                (gauge_names.zip vs).any (fun p => (gauge_set_value p.2).isNone)
      else false

/-! ## The poll cycle and the loop -/

/-- The Exoscale API endpoint for metrics. -/
def exoscale_api_base_url : String :=
  "https://api-de-muc-1.exoscale.com/v2/dbaas-service-metrics/"

/-- The outcome of one pass of the `try` block over the database list:
the final registry and the URLs POSTed, in order. -/
structure CycleResult where
  gauges : Gauges
  requests : List String
deriving DecidableEq

/-- The `for database_name in database_names` loop inside the `try`
block, with `env` giving each database's outcome this cycle.  A raised
exception jumps to the `except` handler, so the remaining databases are
not requested. -/
def run_cycle (env : String → HttpOutcome) (g : Gauges) :
    List String → CycleResult
  | [] => ⟨g, []⟩
  | db :: rest =>
      let url := exoscale_api_base_url ++ db
      let step := process_database g db (env db)
      if step.2 then ⟨step.1, [url]⟩
      else
        let r := run_cycle env step.1 rest
        ⟨r.gauges, url :: r.requests⟩

/-- The registry after `n` complete poll cycles of `fetch_metrics`,
with `envs c` the outcomes of cycle `c`. -/
def gauges_after (envs : Nat → String → HttpOutcome) (dbs : List String)
    (g : Gauges) : Nat → Gauges
  | 0 => g
  | n + 1 => (run_cycle (envs n) (gauges_after envs dbs g n) dbs).gauges

/-- Observable events of one cycle of the poll loop. -/
inductive LoopEvent where
  | request (url : String) : LoopEvent
  | sleep (seconds : Nat) : LoopEvent
deriving DecidableEq

/-- The event trace of one iteration of the `while True` loop: the
requests issued (inside the `try`), then the unconditional
`time.sleep(30)`. -/
def cycle_trace (env : String → HttpOutcome) (g : Gauges)
    (dbs : List String) : List LoopEvent :=
  (run_cycle env g dbs).requests.map LoopEvent.request ++ [LoopEvent.sleep 30]

/-! ## Startup -/

/-- Observable startup events of the module body and `__main__`. -/
inductive StartEvent where
  | validateConfig : StartEvent
  | exitProcess (code : Nat) : StartEvent
  | startHttpServer (port : Nat) : StartEvent
  | enterPollLoop (dbs : List String) : StartEvent
deriving DecidableEq

/-- `database_names_str.split(",")`: `n` commas give `n + 1` items,
empty items included. -/
def split_commas (s : String) : List String :=
  (splitOnChar ',' s.data).map String.mk

/-- The module body followed by `__main__`: read the three environment
variables (`none` = unset), validate, and only then start the HTTP
server on port 8080 and enter `fetch_metrics`. -/
def module_main (api_key api_secret database_names_str : Option String) :
    List StartEvent :=
  if api_key = none ∨ api_secret = none ∨
     api_key = some "" ∨ api_secret = some "" then
    [StartEvent.validateConfig, StartEvent.exitProcess 1]
  else if database_names_str = none ∨ database_names_str = some "" then
    [StartEvent.validateConfig, StartEvent.exitProcess 1]
  else
    [StartEvent.validateConfig,
     StartEvent.startHttpServer 8080,
     StartEvent.enterPollLoop (split_commas (database_names_str.getD ""))]

/-! ## Concrete payloads and environments for evaluation -/

/-- A fully well-formed metric payload: every key maps to
`data.rows = [[0, 1]]`, so every extracted scalar is `1`. -/
def good_payload : JVal :=
  JVal.obj [("metrics", JVal.obj (metric_keys.map (fun k =>
    (k, JVal.obj [("data", JVal.obj [("rows",
        JVal.arr [JVal.arr [JVal.num 0, JVal.num 1]])])]))))]

/-- A payload with the `cpu_usage` key absent and the other eight keys
well-formed. -/
def payload_missing_cpu : JVal :=
  JVal.obj [("metrics", JVal.obj ((metric_keys.filter
      (fun k => decide (k ≠ "cpu_usage"))).map (fun k =>
    (k, JVal.obj [("data", JVal.obj [("rows",
        JVal.arr [JVal.arr [JVal.num 0, JVal.num 1]])])]))))]

/-- A cycle environment in which database `B` suffers a connection
failure (`requests.post` raises) and every other database answers 200
with a well-formed payload. -/
def env_B_exn : String → HttpOutcome :=
  fun db => if db = "B" then HttpOutcome.exn
            else HttpOutcome.response 200 (some good_payload)

/-- A cycle environment in which database `B` answers with status 500
and every other database answers 200 with a well-formed payload. -/
def env_B_500 : String → HttpOutcome :=
  fun db => if db = "B" then HttpOutcome.response 500 none
            else HttpOutcome.response 200 (some good_payload)

/-! ## Helper lemmas: the gauge registry -/

theorem get_gauge_nil (n d : String) : get_gauge [] n d = none := rfl

theorem get_gauge_cons (e : (String × String) × ℚ) (rest : Gauges)
    (n d : String) :
    get_gauge (e :: rest) n d =
      if e.1 = (n, d) then some e.2 else get_gauge rest n d := by
  by_cases h : e.1 = (n, d)
  · simp [get_gauge, List.find?, h]
  · simp only [get_gauge, List.find?, decide_eq_false h, if_neg h]

theorem set_gauge_nil (n d : String) (v : ℚ) :
    set_gauge [] n d v = [((n, d), v)] := rfl

theorem set_gauge_cons (e : (String × String) × ℚ) (rest : Gauges)
    (n d : String) (v : ℚ) :
    set_gauge (e :: rest) n d v =
      if e.1 = (n, d) then ((n, d), v) :: rest
      else e :: set_gauge rest n d v := rfl

theorem get_set_gauge_same (g : Gauges) (n d : String) (v : ℚ) :
    get_gauge (set_gauge g n d v) n d = some v := by
  induction g with
  | nil => simp [set_gauge_nil, get_gauge_cons]
  | cons e rest ih =>
      rw [set_gauge_cons]
      by_cases he : e.1 = (n, d)
      · simp [he, get_gauge_cons]
      · rw [if_neg he, get_gauge_cons, if_neg he, ih]

theorem get_set_gauge_ne (g : Gauges) {n d n0 d0 : String} (v : ℚ)
    (h : (n0, d0) ≠ (n, d)) :
    get_gauge (set_gauge g n d v) n0 d0 = get_gauge g n0 d0 := by
  have hne : ¬ ((n, d) : String × String) = (n0, d0) := fun h2 => h h2.symm
  induction g with
  | nil => simp [set_gauge_nil, get_gauge_cons, get_gauge_nil, hne]
  | cons e rest ih =>
      rw [set_gauge_cons]
      by_cases he : e.1 = (n, d)
      · rw [if_pos he, get_gauge_cons, if_neg hne, get_gauge_cons, he,
            if_neg hne]
      · rw [if_neg he, get_gauge_cons, get_gauge_cons (n := n0) (d := d0) e rest]
        by_cases h0 : e.1 = (n0, d0)
        · rw [if_pos h0, if_pos h0]
        · rw [if_neg h0, if_neg h0, ih]

/-! ## Helper lemmas: the set phase -/

theorem set_phase_raises (g : Gauges) (db : String)
    (l : List (String × JVal)) :
    (set_phase g db l).2 = l.any (fun p => (gauge_set_value p.2).isNone) := by
  induction l generalizing g with
  | nil => simp [set_phase]
  | cons p rest ih =>
      obtain ⟨name, v⟩ := p
      cases hv : gauge_set_value v with
      | none => simp [set_phase, hv]
      | some q => simp [set_phase, hv, ih]

theorem set_phase_other_db (g : Gauges) {db db0 : String}
    (l : List (String × JVal)) (h : db0 ≠ db) (n : String) :
    get_gauge (set_phase g db l).1 n db0 = get_gauge g n db0 := by
  induction l generalizing g with
  | nil => simp [set_phase]
  | cons p rest ih =>
      obtain ⟨name, v⟩ := p
      cases hv : gauge_set_value v with
      | none => simp [set_phase, hv]
      | some q =>
          simp only [set_phase, hv]
          rw [ih (set_gauge g name db q)]
          exact get_set_gauge_ne g q (fun h2 => h (congrArg Prod.snd h2))

theorem set_phase_other_name (g : Gauges) (db : String)
    (l : List (String × JVal)) {n : String}
    (h : n ∉ l.map Prod.fst) (db0 : String) :
    get_gauge (set_phase g db l).1 n db0 = get_gauge g n db0 := by
  induction l generalizing g with
  | nil => simp [set_phase]
  | cons p rest ih =>
      obtain ⟨name, v⟩ := p
      have hn : n ≠ name := by
        intro he
        exact h (by simp [he])
      have hrest : n ∉ rest.map Prod.fst := by
        intro hm
        exact h (by simp [hm])
      cases hv : gauge_set_value v with
      | none => simp [set_phase, hv]
      | some q =>
          simp only [set_phase, hv]
          rw [ih (set_gauge g name db q) hrest]
          exact get_set_gauge_ne g q (fun h2 => hn (congrArg Prod.fst h2))

theorem set_phase_get (g : Gauges) (db : String)
    (l : List (String × JVal))
    (hnd : (l.map Prod.fst).Nodup)
    {n : String} {v : JVal} (hmem : (n, v) ∈ l) {q : ℚ}
    (hv : gauge_set_value v = some q)
    (hall : ∀ p ∈ l, (gauge_set_value p.2).isSome = true) :
    get_gauge (set_phase g db l).1 n db = some q := by
  induction l generalizing g with
  | nil => cases hmem
  | cons p rest ih =>
      obtain ⟨name, w⟩ := p
      simp only [List.map_cons, List.nodup_cons] at hnd
      rcases List.mem_cons.mp hmem with hhd | htl
      · cases hhd
        simp only [set_phase, hv]
        rw [set_phase_other_name _ _ _ (by simpa using hnd.1)]
        exact get_set_gauge_same ..
      · obtain ⟨qw, hqw⟩ := Option.isSome_iff_exists.mp
          (hall (name, w) (List.mem_cons_self ..))
        simp only [set_phase, hqw]
        exact ih (set_gauge g name db qw) hnd.2 htl
          (fun p hp => hall p (List.mem_cons_of_mem _ hp))

/-! ## Helper lemmas: one database -/

theorem process_database_raises (g : Gauges) (db : String)
    (out : HttpOutcome) :
    (process_database g db out).2 = raises_exception out := by
  cases out with
  | exn => rfl
  | response status body =>
      by_cases hs : status = 200
      · cases body with
        | none => simp [process_database, raises_exception, hs]
        | some j =>
            cases he : extract_nine j with
            | none => simp [process_database, raises_exception, hs, he]
            | some vs =>
                simp [process_database, raises_exception, hs, he,
                  set_phase_raises]
      · simp [process_database, raises_exception, hs]

theorem process_database_non200 (g : Gauges) (db : String)
    {status : Nat} (body : Option JVal) (hs : status ≠ 200) :
    process_database g db (HttpOutcome.response status body) = (g, false) := by
  simp [process_database, hs]

theorem process_database_other_db (g : Gauges) {d db : String}
    (out : HttpOutcome) (h : db ≠ d) (n : String) :
    get_gauge (process_database g d out).1 n db = get_gauge g n db := by
  cases out with
  | exn => rfl
  | response status body =>
      by_cases hs : status = 200
      · cases body with
        | none => simp [process_database, hs]
        | some j =>
            cases he : extract_nine j with
            | none => simp [process_database, hs, he]
            | some vs =>
                simp only [process_database, hs, if_pos rfl, he]
                exact set_phase_other_db g _ h n
      · simp [process_database, hs]

/-- A successful `optionTraverse` preserves length and is pointwise the
image of its input. -/
theorem optionTraverse_get? {f : α → Option β} :
    ∀ {l : List α} {l' : List β}, optionTraverse f l = some l' →
      l'.length = l.length ∧
      ∀ k v, l.get? k = some v → ∃ w, l'.get? k = some w ∧ f v = some w := by
  intro l
  induction l with
  | nil =>
      intro l' h
      obtain rfl : ([] : List β) = l' := by simpa [optionTraverse] using h
      exact ⟨rfl, fun k v hv => by simp at hv⟩
  | cons a rest ih =>
      intro l' h
      cases hfa : f a with
      | none => simp [optionTraverse, hfa] at h
      | some b =>
          cases hrest : optionTraverse f rest with
          | none => simp [optionTraverse, hfa, hrest] at h
          | some bs =>
              obtain rfl : b :: bs = l' := by
                simpa [optionTraverse, hfa, hrest] using h
              obtain ⟨hlen, hget⟩ := ih hrest
              refine ⟨by simp [hlen], fun k v hv => ?_⟩
              cases k with
              | zero =>
                  obtain rfl : a = v := by simpa using hv
                  exact ⟨b, by simp, hfa⟩
              | succ k =>
                  obtain ⟨w, hw1, hw2⟩ := hget k v (by simpa using hv)
                  exact ⟨w, by simpa using hw1, hw2⟩

/-- A successful `optionTraverse` means every element's image is
defined. -/
theorem optionTraverse_isSome {f : α → Option β} :
    ∀ {l : List α} {l' : List β}, optionTraverse f l = some l' →
      ∀ a ∈ l, (f a).isSome = true := by
  intro l
  induction l with
  | nil => intro l' _ a ha; cases ha
  | cons x rest ih =>
      intro l' h a ha
      cases hfa : f x with
      | none => simp [optionTraverse, hfa] at h
      | some b =>
          cases hrest : optionTraverse f rest with
          | none => simp [optionTraverse, hfa, hrest] at h
          | some bs =>
              rcases List.mem_cons.mp ha with rfl | hm
              · simp [hfa]
              · exact ih hrest a hm

/-- Pair membership in a zip from positionwise membership. -/
theorem zip_mem_of_get? :
    ∀ {l1 : List α} {l2 : List β} {k : Nat} {a : α} {b : β},
      l1.get? k = some a → l2.get? k = some b → (a, b) ∈ l1.zip l2 := by
  intro l1
  induction l1 with
  | nil => intro l2 k a b h1 _; simp at h1
  | cons x rest ih =>
      intro l2 k a b h1 h2
      cases l2 with
      | nil => simp at h2
      | cons y rest2 =>
          cases k with
          | zero =>
              obtain rfl : x = a := by simpa using h1
              obtain rfl : y = b := by simpa using h2
              simp [List.zip_cons_cons]
          | succ k =>
              exact List.mem_cons_of_mem _
                (ih (by simpa using h1) (by simpa using h2))

theorem get?_eq_some_getD {l : List α} {k : Nat} (d : α) (h : k < l.length) :
    l.get? k = some (l.getD k d) := by
  induction l generalizing k with
  | nil => simp at h
  | cons x rest ih =>
      cases k with
      | zero => rfl
      | succ k =>
          have := ih (k := k) (by simpa using h)
          simpa [List.getD] using this

/-- A fully well-formed payload splits into a successful extraction and
a successful numeric conversion. -/
theorem nine_values_spec {j : JVal} {qs : List ℚ}
    (h : nine_values j = some qs) :
    ∃ vs, extract_nine j = some vs ∧
      optionTraverse gauge_set_value vs = some qs := by
  cases he : extract_nine j with
  | none => simp [nine_values, he] at h
  | some vs => exact ⟨vs, rfl, by simpa [nine_values, he] using h⟩

/-- On a 200 response whose payload is fully well-formed, the iteration
body raises nothing and writes the `k`-th extracted scalar to the `k`-th
gauge of this database. -/
theorem process_database_success (g : Gauges) (db : String) {j : JVal}
    {qs : List ℚ} (h : nine_values j = some qs) :
    (process_database g db (HttpOutcome.response 200 (some j))).2 = false ∧
    qs.length = 9 ∧
    ∀ k, k < 9 →
      get_gauge (process_database g db (HttpOutcome.response 200 (some j))).1
        (gauge_names.getD k "") db = qs.get? k := by
  obtain ⟨vs, he, ht⟩ := nine_values_spec h
  obtain ⟨hlen_vs, _⟩ := optionTraverse_get? he
  obtain ⟨hlen_qs, hget⟩ := optionTraverse_get? ht
  have h9 : vs.length = 9 := by simpa [metric_keys] using hlen_vs
  have hq9 : qs.length = 9 := by rw [hlen_qs, h9]
  have hmapfst : (gauge_names.zip vs).map Prod.fst = gauge_names :=
    List.map_fst_zip _ _ (by rw [h9]; decide)
  have hproc : process_database g db (HttpOutcome.response 200 (some j)) =
      set_phase g db (gauge_names.zip vs) := by
    simp [process_database, he]
  refine ⟨?_, hq9, ?_⟩
  · rw [hproc, set_phase_raises, List.any_eq_false]
    intro p hp
    have h2 : p.2 ∈ vs := (List.of_mem_zip hp).2
    have := optionTraverse_isSome ht p.2 h2
    simp [Option.isNone_iff_eq_none]
    exact Option.ne_none_iff_isSome.mpr this
  · intro k hk
    obtain ⟨v, hv⟩ : ∃ v, vs.get? k = some v :=
      ⟨vs.getD k JVal.null, get?_eq_some_getD _ (by omega)⟩
    obtain ⟨w, hw1, hw2⟩ := hget k v hv
    have hnames : gauge_names.get? k = some (gauge_names.getD k "") :=
      get?_eq_some_getD _
        (by rw [show gauge_names.length = 9 from rfl]; exact hk)
    rw [hproc, hw1]
    exact set_phase_get g db _ (by rw [hmapfst]; decide)
      (zip_mem_of_get? hnames hv) hw2
      (fun p hp => optionTraverse_isSome ht p.2 (List.of_mem_zip hp).2)

/-! ## Helper lemmas: the poll cycle -/

theorem run_cycle_requests (env : String → HttpOutcome) (g : Gauges)
    (dbs : List String)
    (hall : ∀ db ∈ dbs, raises_exception (env db) = false) :
    (run_cycle env g dbs).requests =
      dbs.map (fun d => exoscale_api_base_url ++ d) := by
  induction dbs generalizing g with
  | nil => rfl
  | cons d rest ih =>
      have h2 : (process_database g d (env d)).2 = false := by
        rw [process_database_raises]
        exact hall d (List.mem_cons_self ..)
      simp only [run_cycle, h2, if_neg (Bool.false_ne_true), List.map_cons]
      rw [ih _ (fun db hm => hall db (List.mem_cons_of_mem _ hm))]

theorem run_cycle_head (env : String → HttpOutcome) (g : Gauges)
    (dbs : List String) :
    (run_cycle env g dbs).requests.head? =
      dbs.head?.map (fun d => exoscale_api_base_url ++ d) := by
  cases dbs with
  | nil => rfl
  | cons d rest =>
      by_cases h2 : (process_database g d (env d)).2
      · simp [run_cycle, h2]
      · simp [run_cycle, h2]

theorem run_cycle_other_db (env : String → HttpOutcome) (g : Gauges)
    (dbs : List String) {db : String} (h : db ∉ dbs) (n : String) :
    get_gauge (run_cycle env g dbs).gauges n db = get_gauge g n db := by
  induction dbs generalizing g with
  | nil => rfl
  | cons d rest ih =>
      have hd : db ≠ d := fun he => h (he ▸ List.mem_cons_self ..)
      have hrest : db ∉ rest := fun hm => h (List.mem_cons_of_mem _ hm)
      by_cases h2 : (process_database g d (env d)).2
      · simp only [run_cycle, h2, if_pos rfl]
        exact process_database_other_db g _ hd n
      · simp only [run_cycle, h2, if_neg (Bool.false_ne_true)]
        rw [ih _ hrest, process_database_other_db g _ hd n]

theorem run_cycle_non200 (env : String → HttpOutcome) (g : Gauges)
    (dbs : List String) {db : String} {s : Nat} {b : Option JVal}
    (henv : env db = HttpOutcome.response s b) (hs : s ≠ 200) (n : String) :
    get_gauge (run_cycle env g dbs).gauges n db = get_gauge g n db := by
  induction dbs generalizing g with
  | nil => rfl
  | cons d rest ih =>
      by_cases hd : d = db
      · subst hd
        have hstep : process_database g d (env d) = (g, false) := by
          rw [henv]
          exact process_database_non200 g d b hs
        simp only [run_cycle, hstep, if_neg (Bool.false_ne_true)]
        exact ih g
      · have hd2 : db ≠ d := fun he => hd he.symm
        by_cases h2 : (process_database g d (env d)).2
        · simp only [run_cycle, h2, if_pos rfl]
          exact process_database_other_db g _ hd2 n
        · simp only [run_cycle, h2, if_neg (Bool.false_ne_true)]
          rw [ih _, process_database_other_db g _ hd2 n]

theorem run_cycle_success (env : String → HttpOutcome) (g : Gauges)
    (dbs : List String) {db : String} {j : JVal} {qs : List ℚ}
    (hall : ∀ d ∈ dbs, raises_exception (env d) = false)
    (hmem : db ∈ dbs)
    (henv : env db = HttpOutcome.response 200 (some j))
    (hq : nine_values j = some qs) :
    ∀ k, k < 9 →
      get_gauge (run_cycle env g dbs).gauges (gauge_names.getD k "") db =
        qs.get? k := by
  induction dbs generalizing g with
  | nil => cases hmem
  | cons d rest ih =>
      intro k hk
      have h2 : (process_database g d (env d)).2 = false := by
        rw [process_database_raises]
        exact hall d (List.mem_cons_self ..)
      simp only [run_cycle, h2, if_neg (Bool.false_ne_true)]
      have hallrest : ∀ d0 ∈ rest, raises_exception (env d0) = false :=
        fun d0 hm => hall d0 (List.mem_cons_of_mem _ hm)
      by_cases hd : d = db
      · subst hd
        by_cases hr : d ∈ rest
        · exact ih _ hallrest hr k hk
        · rw [run_cycle_other_db env _ rest hr]
          have := process_database_success g d hq
          rw [henv]
          exact this.2.2 k hk
      · have hr : db ∈ rest := by
          rcases List.mem_cons.mp hmem with he | hm
          · exact absurd he.symm hd
          · exact hm
        exact ih _ hallrest hr k hk

theorem run_cycle_take (env : String → HttpOutcome) (g : Gauges)
    (dbs : List String) (i : Nat) (hi : i < dbs.length)
    (hr : raises_exception (env (dbs.getD i "")) = true)
    (hb : ∀ j, j < i → raises_exception (env (dbs.getD j "")) = false) :
    (run_cycle env g dbs).requests =
      (dbs.take (i + 1)).map (fun d => exoscale_api_base_url ++ d) := by
  induction dbs generalizing g i with
  | nil => simp at hi
  | cons d rest ih =>
      cases i with
      | zero =>
          have h2 : (process_database g d (env d)).2 = true := by
            rw [process_database_raises]
            simpa using hr
          simp [run_cycle, h2]
      | succ i =>
          have h2 : (process_database g d (env d)).2 = false := by
            rw [process_database_raises]
            simpa using hb 0 (Nat.succ_pos i)
          simp only [run_cycle, h2, if_neg (Bool.false_ne_true),
            List.take_succ_cons, List.map_cons]
          rw [ih _ i (by simpa using hi) (by simpa using hr)
            (fun j hj => by simpa using hb (j + 1) (by omega))]

/-! ## Helper lemmas: query parsing and the signer -/

theorem mem_distinctNames (l : List String) (n : String) :
    n ∈ distinctNames l ↔ n ∈ l := by
  induction l with
  | nil => simp [distinctNames]
  | cons x rest ih =>
      by_cases hx : n = x
      · simp [distinctNames, hx]
      · simp [distinctNames, hx, List.mem_filter, ih]

theorem signed_params_sorted (q : String) :
    List.Sorted (· ≤ ·) (signed_params q) :=
  List.sorted_insertionSort _ _

theorem mem_signed_params (q : String) (n : String) :
    n ∈ signed_params q ↔ n ∈ (parse_qsl q).map Prod.fst := by
  rw [signed_params,
    (List.perm_insertionSort (α := String) (· ≤ ·) _).mem_iff,
    mem_distinctNames]

theorem signed_params_nil_iff (q : String) :
    signed_params q = [] ↔ parse_qsl q = [] := by
  constructor
  · intro h
    have hperm := List.perm_insertionSort (α := String) (· ≤ ·)
      (distinctNames ((parse_qsl q).map Prod.fst))
    rw [signed_params] at h
    rw [h] at hperm
    have hd : distinctNames ((parse_qsl q).map Prod.fst) = [] :=
      hperm.symm.eq_nil
    cases hq : parse_qsl q with
    | nil => rfl
    | cons p rest =>
        rw [hq] at hd
        simp [distinctNames] at hd
  · intro h
    rw [signed_params, h]
    rfl

theorem single_value_match (xs : List String) :
    (match xs with
     | [v] => some v
     | _ => none) =
      if xs.length = 1 then xs.head? else none := by
  cases xs with
  | nil => rfl
  | cons v rest => cases rest <;> simp

theorem splitFirstEq_not_mem {n : List Char} (h : '=' ∉ n) :
    splitFirstEq n = none := by
  induction n with
  | nil => rfl
  | cons c rest ih =>
      have hc : c ≠ '=' := fun he => h (he ▸ List.mem_cons_self ..)
      have hrest : '=' ∉ rest := fun hm => h (List.mem_cons_of_mem _ hm)
      simp [splitFirstEq, hc, ih hrest]

theorem splitFirstEq_append {n v : List Char} (h : '=' ∉ n) :
    splitFirstEq (n ++ '=' :: v) = some (n, v) := by
  induction n with
  | nil => simp [splitFirstEq]
  | cons c rest ih =>
      have hc : c ≠ '=' := fun he => h (he ▸ List.mem_cons_self ..)
      have hrest : '=' ∉ rest := fun hm => h (List.mem_cons_of_mem _ hm)
      simp [splitFirstEq, hc, ih hrest]

theorem utf8_foldl_append (l : List String) (s : String) :
    utf8 (l.foldl (fun r t => r ++ t) s) = utf8 s ++ (l.map utf8).flatten := by
  induction l generalizing s with
  | nil => simp
  | cons x rest ih =>
      rw [List.foldl_cons, ih, utf8_append]
      simp

theorem utf8_join (l : List String) :
    utf8 (String.join l) = (l.map utf8).flatten := by
  rw [String.join, utf8_foldl_append]
  rfl

theorem getHeader_setHeader (hs : List (String × String)) (k v : String) :
    getHeader (setHeader hs k v) k = some v := by
  induction hs with
  | nil => simp [setHeader, getHeader, List.find?]
  | cons e rest ih =>
      by_cases he : e.1 = k
      · simp [setHeader, he, getHeader, List.find?]
      · simp only [setHeader, if_neg he]
        simp only [getHeader, List.find?, decide_eq_false he]
        exact ih

theorem run_cycle_requests_cons (env : String → HttpOutcome) (g : Gauges)
    (d : String) (rest : List String) :
    ∃ t, (run_cycle env g (d :: rest)).requests =
      (exoscale_api_base_url ++ d) :: t := by
  by_cases h2 : (process_database g d (env d)).2
  · exact ⟨[], by simp [run_cycle, h2]⟩
  · exact ⟨(run_cycle env (process_database g d (env d)).1 rest).requests,
      by simp [run_cycle, h2]⟩

/-! ## The claims -/

/-- C1 counterexample: with databases `A`, `B`, `C` and a connection
failure (a raised exception) for `B`, the cycle issues requests for `A`
and `B` only — `C` is never requested and its gauges never update — so a
failure for one database does abort the cycle for the others. -/
theorem C1_counterexample :
    raises_exception (env_B_exn "B") = true
    ∧ (run_cycle env_B_exn [] ["A", "B", "C"]).requests =
        [exoscale_api_base_url ++ "A", exoscale_api_base_url ++ "B"]
    ∧ get_gauge (run_cycle env_B_exn [] ["A", "B", "C"]).gauges
        "dbaas_cpu_usage" "C" = none
    ∧ get_gauge (run_cycle env_B_exn [] ["A", "B", "C"]).gauges
        "dbaas_cpu_usage" "A" = some 1 := by
  decide

/-- C1 (amended): in a cycle in which no database's outcome raises an
exception — in particular when failures are non-200 responses — every
database's request is issued; a database answered with a non-200 status
keeps all its previous gauge values, and a database answered 200 with a
fully well-formed payload has its gauges updated normally.  (An
exception — connection failure, parse error, missing field — instead
aborts the remainder of the cycle, because the handler wraps the whole
for-loop.) -/
theorem C1_amended (env : String → HttpOutcome) (g : Gauges)
    (dbs : List String)
    (hall : ∀ db ∈ dbs, raises_exception (env db) = false) :
    (run_cycle env g dbs).requests =
      dbs.map (fun d => exoscale_api_base_url ++ d)
    ∧ (∀ db ∈ dbs, ∀ s b, env db = HttpOutcome.response s b → s ≠ 200 →
        ∀ n, get_gauge (run_cycle env g dbs).gauges n db = get_gauge g n db)
    ∧ (∀ db ∈ dbs, ∀ j qs, env db = HttpOutcome.response 200 (some j) →
        nine_values j = some qs →
        ∀ k, k < 9 →
          get_gauge (run_cycle env g dbs).gauges (gauge_names.getD k "") db =
            qs.get? k) := by
  refine ⟨run_cycle_requests env g dbs hall, ?_, ?_⟩
  · intro db _ s b henv hs n
    exact run_cycle_non200 env g dbs henv hs n
  · intro db hmem j qs henv hq k hk
    exact run_cycle_success env g dbs hall hmem henv hq k hk

/-- Witness for C1 (amended): databases `A`, `B`, `C` where `B` answers
500 and the others answer 200 with a well-formed payload. -/
theorem C1_amended_witness :
    (∀ db ∈ (["A", "B", "C"] : List String),
        raises_exception (env_B_500 db) = false)
    ∧ ((run_cycle env_B_500 [] ["A", "B", "C"]).requests =
        (["A", "B", "C"] : List String).map (fun d => exoscale_api_base_url ++ d)
      ∧ (∀ db ∈ (["A", "B", "C"] : List String), ∀ s b,
          env_B_500 db = HttpOutcome.response s b → s ≠ 200 →
          ∀ n, get_gauge (run_cycle env_B_500 [] ["A", "B", "C"]).gauges n db =
            get_gauge [] n db)
      ∧ (∀ db ∈ (["A", "B", "C"] : List String), ∀ j qs,
          env_B_500 db = HttpOutcome.response 200 (some j) →
          nine_values j = some qs →
          ∀ k, k < 9 →
            get_gauge (run_cycle env_B_500 [] ["A", "B", "C"]).gauges
              (gauge_names.getD k "") db = qs.get? k)) :=
  ⟨by decide, C1_amended env_B_500 [] ["A", "B", "C"] (by decide)⟩

/-- C4: on a 200 response whose payload is missing any of the nine
expected metric keys or rows (the extraction block raises), the
iteration body leaves the registry exactly as it was: none of this
database's gauges — indeed no gauge at all — changes in this cycle.
Partial-field failure is whole-database failure, never a partial
update. -/
theorem C4_missing_key_no_update (g : Gauges) (db : String) (j : JVal)
    (h : extract_nine j = none) :
    process_database g db (HttpOutcome.response 200 (some j)) = (g, true)
    ∧ ∀ n d,
        get_gauge (process_database g db
          (HttpOutcome.response 200 (some j))).1 n d = get_gauge g n d := by
  have hp : process_database g db (HttpOutcome.response 200 (some j)) =
      (g, true) := by
    simp [process_database, h]
  exact ⟨hp, fun n d => by rw [hp]⟩

/-- Witness for C4: a payload with `cpu_usage` absent and the other
eight keys fully well-formed. -/
theorem C4_witness :
    extract_nine payload_missing_cpu = none
    ∧ (process_database [((("dbaas_disk_usage", "db1") : String × String), (7 : ℚ))]
          "db1" (HttpOutcome.response 200 (some payload_missing_cpu)) =
        ([((("dbaas_disk_usage", "db1") : String × String), (7 : ℚ))], true)
      ∧ ∀ n d,
          get_gauge (process_database
            [((("dbaas_disk_usage", "db1") : String × String), (7 : ℚ))] "db1"
            (HttpOutcome.response 200 (some payload_missing_cpu))).1 n d =
            get_gauge [((("dbaas_disk_usage", "db1") : String × String), (7 : ℚ))] n d) :=
  ⟨rfl, C4_missing_key_no_update _ "db1" payload_missing_cpu rfl⟩

/-- C5: on a 200 response whose payload holds all nine metric keys with
numeric last-row values, the iteration body raises nothing and sets, for
each of the nine gauge names, the gauge labelled with this database to
exactly the scalar obtained as `metrics[key].data.rows[-1][1]` — for any
prior registry contents, so an earlier cycle's value is overwritten, not
averaged or accumulated. -/
theorem C5_success_sets_latest (g : Gauges) (db : String) (j : JVal)
    (qs : List ℚ) (h : nine_values j = some qs) :
    (process_database g db (HttpOutcome.response 200 (some j))).2 = false
    ∧ qs.length = 9
    ∧ (∀ k, k < 9 →
        get_gauge (process_database g db
          (HttpOutcome.response 200 (some j))).1 (gauge_names.getD k "") db =
          qs.get? k)
    ∧ (∀ k, k < 9 → ∃ v,
        latest_metric j (metric_keys.getD k "") = some v
        ∧ gauge_set_value v = qs.get? k) := by
  obtain ⟨h1, h2, h3⟩ := process_database_success g db h
  refine ⟨h1, h2, h3, ?_⟩
  intro k hk
  obtain ⟨vs, he, ht⟩ := nine_values_spec h
  obtain ⟨hlen_vs, hgete⟩ := optionTraverse_get? he
  obtain ⟨hlen_qs, hgett⟩ := optionTraverse_get? ht
  have hkeys : metric_keys.get? k = some (metric_keys.getD k "") :=
    get?_eq_some_getD _ (by rw [show metric_keys.length = 9 from rfl]; exact hk)
  obtain ⟨v, hv1, hv2⟩ := hgete k _ hkeys
  obtain ⟨w, hw1, hw2⟩ := hgett k v hv1
  exact ⟨v, hv2, by rw [hw1, hw2]⟩

/-- C2 counterexample: in the query `a=1&a=2` the name `a` carries two
values, yet it does appear in the sorted name list and in the
`signed-query-args` segment — which is present even though no value at
all entered the signed concatenation. -/
theorem C2_counterexample :
    (qsValues "a=1&a=2" "a").length = 2
    ∧ "a" ∈ signed_params "a=1&a=2"
    ∧ params_values "a=1&a=2" = []
    ∧ signed_query_args_segment "a=1&a=2" = ",signed-query-args=a" := by
  decide

/-- C2 (amended): the `signed-query-args` list is the lexicographically
sorted list of all distinct parsed parameter names — multi-valued names
included — and the segment is present exactly when the parsed query is
nonempty; only the names bound to exactly one value contribute that
value to the signed concatenation, in sorted name order.  (Names with a
blank value are dropped by parsing and so occur nowhere.) -/
theorem C2_amended (q : String) :
    List.Sorted (· ≤ ·) (signed_params q)
    ∧ (∀ n, n ∈ signed_params q ↔ n ∈ (parse_qsl q).map Prod.fst)
    ∧ params_values q =
        (signed_params q).filterMap (fun n =>
          if (qsValues q n).length = 1 then (qsValues q n).head? else none)
    ∧ (signed_query_args_segment q = "" ↔ parse_qsl q = [])
    ∧ (parse_qsl q ≠ [] →
        signed_query_args_segment q =
          ",signed-query-args=" ++ String.intercalate ";" (signed_params q)) := by
  refine ⟨signed_params_sorted q, mem_signed_params q, ?_, ?_, ?_⟩
  · rw [params_values]
    congr 1
    funext n
    exact single_value_match _
  · constructor
    · intro h
      by_contra hq
      have hsp : signed_params q ≠ [] :=
        fun h0 => hq ((signed_params_nil_iff q).mp h0)
      rw [signed_query_args_segment, if_pos hsp] at h
      have := congrArg String.length h
      simp [String.length_append] at this
      exact absurd this.1 (by decide)
    · intro h
      rw [signed_query_args_segment,
        if_neg (by simpa using (signed_params_nil_iff q).mpr h)]
  · intro h
    rw [signed_query_args_segment,
      if_pos (fun h0 => h ((signed_params_nil_iff q).mp h0))]

/-- C3: the canonical message is exactly five segments joined by single
newline bytes — method, space and path; the raw body bytes or nothing;
the single-valued query values concatenated with no separator in sorted
name order; an empty segment; the decimal expiration — and the signature
is the base64 encoding of the raw HMAC-SHA256 digest of that message
keyed by the UTF-8 bytes of the credential secret. -/
theorem C3_canonical_message (secret : String) (r : PreparedRequest)
    (ts : Nat) :
    canonical_message r ts =
      utf8 r.method ++ 32 :: utf8 r.path
        ++ 10 :: (match r.body with
                  | some b => utf8 b
                  | none => [])
        ++ 10 :: ((params_values r.query).map utf8).flatten
        ++ 10 :: 10 :: utf8 (toString ts)
    ∧ request_signature secret r ts =
        standard_b64encode
          (hmacSha256 (utf8 secret) (canonical_message r ts)) := by
  constructor
  · rw [canonical_message, msg_parts]
    simp only [byteJoin]
    rw [utf8_append, utf8_append, utf8_join]
    have hsp : utf8 " " = [32] := rfl
    simp [hsp, List.append_assoc]
  · rfl

/-- C6: signing at current time `t` uses the expiration `t + 600`
seconds, and stores under `Authorization` a header value of exactly the
form `EXO2-HMAC-SHA256 credential=<key><optional signed-query-args
segment>,expires=<expires>,signature=<base64 signature>`, the segments
in that order. -/
theorem C6_expires_and_header (key secret : String) (t : Nat)
    (r : PreparedRequest) :
    getHeader (auth_call key secret t r).headers "Authorization" =
      some (auth_header key secret r (t + 600))
    ∧ auth_header key secret r (t + 600) =
        "EXO2-HMAC-SHA256 credential=" ++ key
          ++ signed_query_args_segment r.query
          ++ ",expires=" ++ toString (t + 600)
          ++ ",signature=" ++ request_signature secret r (t + 600) := by
  constructor
  · have h600 : t + 10 * 60 = t + 600 := by norm_num
    rw [auth_call, h600, sign_request]
    exact getHeader_setHeader r.headers _ _
  · rfl

/-- Witness for C5: a fully well-formed payload whose nine scalars are
all `1`, applied to a registry already holding an older value. -/
theorem C5_witness :
    nine_values good_payload =
      some [1, 1, 1, 1, 1, 1, 1, 1, 1]
    ∧ ((process_database [((("dbaas_cpu_usage", "db1") : String × String), (3 : ℚ))]
          "db1" (HttpOutcome.response 200 (some good_payload))).2 = false
      ∧ ([1, 1, 1, 1, 1, 1, 1, 1, 1] : List ℚ).length = 9
      ∧ (∀ k, k < 9 →
          get_gauge (process_database
            [((("dbaas_cpu_usage", "db1") : String × String), (3 : ℚ))] "db1"
            (HttpOutcome.response 200 (some good_payload))).1
            (gauge_names.getD k "") "db1" =
            ([1, 1, 1, 1, 1, 1, 1, 1, 1] : List ℚ).get? k)
      ∧ (∀ k, k < 9 → ∃ v,
          latest_metric good_payload (metric_keys.getD k "") = some v
          ∧ gauge_set_value v =
              ([1, 1, 1, 1, 1, 1, 1, 1, 1] : List ℚ).get? k)) :=
  ⟨by decide, C5_success_sets_latest _ "db1" good_payload _ (by decide)⟩

/-- C7: with any of the credential key, credential secret, or
monitored-database string missing or empty, the process emits only the
validation and the `exit(1)` — the metrics HTTP server never starts and
the poll loop is never entered; with valid configuration, the single
validation precedes the server start on port 8080 and the poll loop
entry. -/
theorem C7_startup_validation (k s d : Option String)
    (h : k = none ∨ s = none ∨ k = some "" ∨ s = some ""
         ∨ d = none ∨ d = some "") :
    module_main k s d = [StartEvent.validateConfig, StartEvent.exitProcess 1]
    ∧ (∀ p, StartEvent.startHttpServer p ∉ module_main k s d)
    ∧ (∀ l, StartEvent.enterPollLoop l ∉ module_main k s d)
    ∧ ((module_main k s d).count StartEvent.validateConfig = 1)
    ∧ (∀ k0 s0 d0 : String, k0 ≠ "" → s0 ≠ "" → d0 ≠ "" →
        module_main (some k0) (some s0) (some d0) =
          [StartEvent.validateConfig, StartEvent.startHttpServer 8080,
           StartEvent.enterPollLoop (split_commas d0)]) := by
  have h1 : module_main k s d =
      [StartEvent.validateConfig, StartEvent.exitProcess 1] := by
    by_cases hc1 : (k = none ∨ s = none ∨ k = some "" ∨ s = some "")
    · simp [module_main, hc1]
    · have hc2 : d = none ∨ d = some "" := by
        rcases h with h | h | h | h | h | h
        · exact absurd (Or.inl h) hc1
        · exact absurd (Or.inr (Or.inl h)) hc1
        · exact absurd (Or.inr (Or.inr (Or.inl h))) hc1
        · exact absurd (Or.inr (Or.inr (Or.inr h))) hc1
        · exact Or.inl h
        · exact Or.inr h
      simp [module_main, hc1, hc2]
  refine ⟨h1, ?_, ?_, ?_, ?_⟩
  · intro p
    rw [h1]
    simp
  · intro l
    rw [h1]
    simp
  · rw [h1]
    rfl
  · intro k0 s0 d0 hk0 hs0 hd0
    simp [module_main, hk0, hs0, hd0, Option.getD]

/-- Witness for C7: an empty credential key. -/
theorem C7_witness :
    ((some "" : Option String) = none ∨ (some "sec" : Option String) = none
      ∨ (some "" : Option String) = some ""
      ∨ (some "sec" : Option String) = some ""
      ∨ (some "db1" : Option String) = none
      ∨ (some "db1" : Option String) = some "")
    ∧ (module_main (some "") (some "sec") (some "db1") =
        [StartEvent.validateConfig, StartEvent.exitProcess 1]
      ∧ (∀ p, StartEvent.startHttpServer p ∉
          module_main (some "") (some "sec") (some "db1"))
      ∧ (∀ l, StartEvent.enterPollLoop l ∉
          module_main (some "") (some "sec") (some "db1"))
      ∧ ((module_main (some "") (some "sec") (some "db1")).count
          StartEvent.validateConfig = 1)
      ∧ (∀ k0 s0 d0 : String, k0 ≠ "" → s0 ≠ "" → d0 ≠ "" →
          module_main (some k0) (some s0) (some d0) =
            [StartEvent.validateConfig, StartEvent.startHttpServer 8080,
             StartEvent.enterPollLoop (split_commas d0)])) :=
  ⟨by decide, C7_startup_validation (some "") (some "sec") (some "db1")
    (by decide)⟩

/-- C8: the exception handler wraps the whole per-cycle for-loop: when
the database at position `i` of cycle `n` raises (and the ones before it
do not), the cycle's trace is exactly the requests for the first `i + 1`
databases followed by the fixed 30-second sleep — the remaining
databases are not requested — and the next cycle begins again with a
request for the first database of the list. -/
theorem C8_exception_aborts_cycle (envs : Nat → String → HttpOutcome)
    (dbs : List String) (g : Gauges) (n i : Nat) (hi : i < dbs.length)
    (hraise : raises_exception (envs n (dbs.getD i "")) = true)
    (hbefore : ∀ j, j < i → raises_exception (envs n (dbs.getD j "")) = false) :
    cycle_trace (envs n) (gauges_after envs dbs g n) dbs =
      ((dbs.take (i + 1)).map
        (fun d => LoopEvent.request (exoscale_api_base_url ++ d)))
        ++ [LoopEvent.sleep 30]
    ∧ (cycle_trace (envs (n + 1)) (gauges_after envs dbs g (n + 1)) dbs).head? =
        dbs.head?.map (fun d => LoopEvent.request (exoscale_api_base_url ++ d)) := by
  constructor
  · rw [cycle_trace, run_cycle_take _ _ dbs i hi hraise hbefore]
    simp only [List.map_map]
    rfl
  · cases dbs with
    | nil => simp at hi
    | cons d rest =>
        obtain ⟨t, ht⟩ := run_cycle_requests_cons (envs (n + 1))
          (gauges_after envs (d :: rest) g (n + 1)) d rest
        rw [cycle_trace, ht]
        simp

/-- Witness for C8: three databases with a raised exception at
position 1 of cycle 0. -/
theorem C8_witness :
    (1 < (["A", "B", "C"] : List String).length)
    ∧ raises_exception (env_B_exn ((["A", "B", "C"] : List String).getD 1 "")) = true
    ∧ (∀ j, j < 1 →
        raises_exception (env_B_exn ((["A", "B", "C"] : List String).getD j "")) = false)
    ∧ (cycle_trace (env_B_exn) (gauges_after (fun _ => env_B_exn) ["A", "B", "C"] [] 0)
          ["A", "B", "C"] =
        (((["A", "B", "C"] : List String).take 2).map
          (fun d => LoopEvent.request (exoscale_api_base_url ++ d)))
          ++ [LoopEvent.sleep 30]
      ∧ (cycle_trace (env_B_exn)
            (gauges_after (fun _ => env_B_exn) ["A", "B", "C"] [] 1)
            ["A", "B", "C"]).head? =
          (["A", "B", "C"] : List String).head?.map
            (fun d => LoopEvent.request (exoscale_api_base_url ++ d))) :=
  ⟨by decide, by decide, by decide,
    C8_exception_aborts_cycle (fun _ => env_B_exn) ["A", "B", "C"] [] 0 1
      (by decide) (by decide) (by decide)⟩

/-- C9: a query parameter with a blank value (`a=`) or no value (`a`) is
dropped by parsing and so contributes nothing anywhere; a request whose
query parses to nothing is signed byte-for-byte like a request with no
query string, and its Authorization header carries no
`signed-query-args` segment. -/
theorem C9_blank_values (key secret : String) (r : PreparedRequest)
    (ts : Nat) (h : parse_qsl r.query = []) :
    (∀ n : List Char, '=' ∉ n →
        parseChunk n = none ∧ parseChunk (n ++ ['=']) = none)
    ∧ signed_params r.query = []
    ∧ params_values r.query = []
    ∧ signed_query_args_segment r.query = ""
    ∧ canonical_message r ts = canonical_message { r with query := "" } ts
    ∧ auth_header key secret r ts =
        auth_header key secret { r with query := "" } ts := by
  have hsp : signed_params r.query = [] := (signed_params_nil_iff _).mpr h
  have hpv : params_values r.query = [] := by
    rw [params_values, hsp]
    rfl
  have hpv0 : params_values "" = [] := rfl
  have hmsg : canonical_message r ts =
      canonical_message { r with query := "" } ts := by
    rw [canonical_message, canonical_message, msg_parts, msg_parts]
    simp [hpv, hpv0]
  refine ⟨?_, hsp, hpv, ?_, hmsg, ?_⟩
  · intro n hn
    constructor
    · by_cases hnil : n = []
      · subst hnil
        rfl
      · simp [parseChunk, hnil, splitFirstEq_not_mem hn]
    · have hne : n ++ ['='] ≠ [] := by simp
      have hsplit : splitFirstEq (n ++ ['=']) = some (n, []) :=
        splitFirstEq_append hn
      simp [parseChunk, hne, hsplit]
  · rw [signed_query_args_segment, if_neg (by simpa using hsp)]
  · rw [auth_header, auth_header, request_signature, request_signature, hmsg]
    rw [signed_query_args_segment, signed_query_args_segment]
    rw [if_neg (by simpa using hsp)]
    rw [if_neg (by simp [show signed_params "" = [] from rfl])]

/-- Witness for C9: the query `a=&b`, whose two chunks carry a blank
value and no value. -/
theorem C9_witness :
    parse_qsl "a=&b" = []
    ∧ ((∀ n : List Char, '=' ∉ n →
          parseChunk n = none ∧ parseChunk (n ++ ['=']) = none)
      ∧ signed_params "a=&b" = []
      ∧ params_values "a=&b" = []
      ∧ signed_query_args_segment "a=&b" = ""
      ∧ canonical_message
          ⟨"POST", "/v2/dbaas-service-metrics/db1", "a=&b", some "x", []⟩ 77 =
          canonical_message
            ⟨"POST", "/v2/dbaas-service-metrics/db1", "", some "x", []⟩ 77
      ∧ auth_header "k" "sec"
          ⟨"POST", "/v2/dbaas-service-metrics/db1", "a=&b", some "x", []⟩ 77 =
          auth_header "k" "sec"
            ⟨"POST", "/v2/dbaas-service-metrics/db1", "", some "x", []⟩ 77) :=
  ⟨by decide, C9_blank_values "k" "sec"
    ⟨"POST", "/v2/dbaas-service-metrics/db1", "a=&b", some "x", []⟩ 77
    (by decide)⟩

/-- C10: startup validation accepts a database string whose comma-split
list contains empty items — the string itself is nonempty, so the server
starts and the loop is entered with the empty identifiers included; each
empty identifier is polled with a POST to the bare base URL, and on
success its gauges are keyed by the empty-string database label. -/
theorem C10_empty_identifiers (k s d : String) (hk : k ≠ "") (hs : s ≠ "")
    (hd : d ≠ "") (hmem : "" ∈ split_commas d) :
    module_main (some k) (some s) (some d) =
      [StartEvent.validateConfig, StartEvent.startHttpServer 8080,
       StartEvent.enterPollLoop (split_commas d)]
    ∧ exoscale_api_base_url ++ "" = exoscale_api_base_url
    ∧ (∀ env (g : Gauges),
        (∀ db ∈ split_commas d, raises_exception (env db) = false) →
        (run_cycle env g (split_commas d)).requests =
          (split_commas d).map (fun db => exoscale_api_base_url ++ db)
        ∧ exoscale_api_base_url ∈ (run_cycle env g (split_commas d)).requests)
    ∧ (∀ env (g : Gauges) (j : JVal) (qs : List ℚ),
        (∀ db ∈ split_commas d, raises_exception (env db) = false) →
        env "" = HttpOutcome.response 200 (some j) →
        nine_values j = some qs →
        ∀ k0, k0 < 9 →
          get_gauge (run_cycle env g (split_commas d)).gauges
            (gauge_names.getD k0 "") "" = qs.get? k0) := by
  refine ⟨by simp [module_main, hk, hs, hd, Option.getD], by simp, ?_, ?_⟩
  · intro env g hall
    have hreq := run_cycle_requests env g (split_commas d) hall
    refine ⟨hreq, ?_⟩
    rw [hreq]
    have := List.mem_map_of_mem (fun db => exoscale_api_base_url ++ db) hmem
    simpa using this
  · intro env g j qs hall henv hq k0 hk0
    exact run_cycle_success env g (split_commas d) hall hmem henv hq k0 hk0

/-- Witness for C10: the database string `db1,`, which splits into
`db1` and the empty identifier. -/
theorem C10_witness :
    ("key" ≠ "") ∧ ("sec" ≠ "") ∧ ("db1," ≠ "") ∧ "" ∈ split_commas "db1,"
    ∧ (module_main (some "key") (some "sec") (some "db1,") =
        [StartEvent.validateConfig, StartEvent.startHttpServer 8080,
         StartEvent.enterPollLoop (split_commas "db1,")]
      ∧ exoscale_api_base_url ++ "" = exoscale_api_base_url
      ∧ (∀ env (g : Gauges),
          (∀ db ∈ split_commas "db1,", raises_exception (env db) = false) →
          (run_cycle env g (split_commas "db1,")).requests =
            (split_commas "db1,").map (fun db => exoscale_api_base_url ++ db)
          ∧ exoscale_api_base_url ∈ (run_cycle env g (split_commas "db1,")).requests)
      ∧ (∀ env (g : Gauges) (j : JVal) (qs : List ℚ),
          (∀ db ∈ split_commas "db1,", raises_exception (env db) = false) →
          env "" = HttpOutcome.response 200 (some j) →
          nine_values j = some qs →
          ∀ k0, k0 < 9 →
            get_gauge (run_cycle env g (split_commas "db1,")).gauges
              (gauge_names.getD k0 "") "" = qs.get? k0)) :=
  ⟨by decide, by decide, by decide, by decide,
    C10_empty_identifiers "key" "sec" "db1," (by decide) (by decide)
      (by decide) (by decide)⟩

end DbaasExporter
